import Mathlib

/-!
Shallow embedding of the py_linenoise line-editing engine
(`src/linenoise.py`) and proofs about its specification claims.

Python strings are modelled as lists of characters (`PyStr`).  The line
buffer is a Python list of one-character strings, so it is modelled as
`List PyStr`.  Terminal input is modelled as a trace: the list of values
successively returned by the byte-reading primitive `_getc`; an entry
`none` stands for a read that produced nothing within its timeout (or,
for a blocking read, an errored read), which `_getc` turns into the null
key.  Display-only actions (refresh, beep, clear-screen, hints) have no
effect on the modelled state and are omitted.
-/

namespace PyLinenoise

/-- Python `str`, modelled as a list of characters. -/
abbrev PyStr := List Char

/-! ### Key codes (linenoise.py lines 36-55) -/

def _KEY_NULL : PyStr := [Char.ofNat 0]

def _KEY_CTRL_A : PyStr := [Char.ofNat 1]

def _KEY_CTRL_B : PyStr := [Char.ofNat 2]

def _KEY_CTRL_C : PyStr := [Char.ofNat 3]

def _KEY_CTRL_D : PyStr := [Char.ofNat 4]

def _KEY_CTRL_E : PyStr := [Char.ofNat 5]

def _KEY_CTRL_F : PyStr := [Char.ofNat 6]

def _KEY_CTRL_H : PyStr := [Char.ofNat 8]

def _KEY_TAB : PyStr := [Char.ofNat 9]

def _KEY_CTRL_K : PyStr := [Char.ofNat 11]

def _KEY_CTRL_L : PyStr := [Char.ofNat 12]

def _KEY_ENTER : PyStr := [Char.ofNat 13]

def _KEY_CTRL_N : PyStr := [Char.ofNat 14]

def _KEY_CTRL_P : PyStr := [Char.ofNat 16]

def _KEY_CTRL_T : PyStr := [Char.ofNat 20]

def _KEY_CTRL_U : PyStr := [Char.ofNat 21]

def _KEY_CTRL_W : PyStr := [Char.ofNat 23]

def _KEY_ESC : PyStr := [Char.ofNat 27]

def _KEY_BS : PyStr := [Char.ofNat 127]

/-! ### Python string primitives -/

/-- The characters Python's `str.strip()` / `str.isspace()` treat as
whitespace: `\t` `\n` `\v` `\f` `\r` (U+0009-U+000D), the separators
U+001C-U+001F, space, U+0085, U+00A0, U+1680, U+2000-U+200A, U+2028,
U+2029, U+202F, U+205F and U+3000. -/
def pyIsWsChar (c : Char) : Bool :=
  (9 ≤ c.toNat && c.toNat ≤ 13) ||
  (28 ≤ c.toNat && c.toNat ≤ 31) ||
  c == ' ' || c.toNat == 133 || c.toNat == 160 || c.toNat == 0x1680 ||
  (0x2000 ≤ c.toNat && c.toNat ≤ 0x200A) ||
  c.toNat == 0x2028 || c.toNat == 0x2029 ||
  c.toNat == 0x202F || c.toNat == 0x205F || c.toNat == 0x3000

/-- Python `s.strip(chars)`: remove the characters satisfying `p` from
both ends of the string. -/
def pyStripOn (p : Char → Bool) (s : PyStr) : PyStr :=
  (s.dropWhile p).rdropWhile p

/-- Python `s.strip()` with no argument: strip whitespace at both ends. -/
def pyStrip (s : PyStr) : PyStr := pyStripOn pyIsWsChar s

/-- Python `s.isspace()` for a string: non-empty and all whitespace. -/
def pyIsspaceStr (s : PyStr) : Bool := !s.isEmpty && s.all pyIsWsChar

/-! ### History store (linenoise.py lines 919-958) -/

/-- The unconditional tail of `history_add`: drop the oldest entry when
the history is at `maxlen`, then append (lines 926-930). -/
def history_append (history_maxlen : Nat) (history : List PyStr) (line : PyStr) :
    List PyStr :=
  (if history.length = history_maxlen then history.drop 1 else history) ++ [line]

/-- `linenoise.history_add` (lines 919-930).  A no-op when `maxlen` is 0
or when the line equals the current last entry (`history[-1]`). -/
def history_add (history_maxlen : Nat) (history : List PyStr) (line : PyStr) :
    List PyStr :=
  if history_maxlen = 0 then history
  else if history.getLast? = some line then history
  else history_append history_maxlen history line

/-- Python `"\n".join(history)` (line 948). -/
def joinNewline : List PyStr → PyStr
  | [] => []
  | [x] => x
  | x :: y :: t => x ++ '\n' :: joinNewline (y :: t)

/-- The file content written by `linenoise.history_save` (lines 942-949):
`"%s\n" % "\n".join(history)`. -/
def history_save (history : List PyStr) : PyStr := joinNewline history ++ ['\n']

/-- Helper for Python `f.readlines()`: split into lines, each keeping its
trailing newline; `acc` is the reversed current partial line. -/
def pyReadlinesAux : List Char → List Char → List (List Char)
  | acc, [] => if acc.isEmpty then [] else [acc.reverse]
  | acc, c :: rest =>
    if c = '\n' then (acc.reverse ++ ['\n']) :: pyReadlinesAux [] rest
    else pyReadlinesAux (c :: acc) rest

/-- Python `f.readlines()` over a file content. -/
def pyReadlines (s : PyStr) : List PyStr := pyReadlinesAux [] s

/-- The universal-newline translation performed by text-mode
`open(fname, "r")` (line 955): `"\r\n"` and a lone `"\r"` both read as
`"\n"`. -/
def pyUniversalNewlines : List Char → List Char
  | [] => []
  | [c] => if c = '\r' then ['\n'] else [c]
  | c :: d :: rest =>
    if c = '\r' then
      if d = '\n' then '\n' :: pyUniversalNewlines rest
      else '\n' :: pyUniversalNewlines (d :: rest)
    else c :: pyUniversalNewlines (d :: rest)

/-- `linenoise.history_load` applied to a file content (lines 951-958):
the file is opened in text mode, so newlines are translated before
`self.history = [l.strip() for l in f.readlines()]`. -/
def history_load (content : PyStr) : List PyStr :=
  (pyReadlines (pyUniversalNewlines content)).map pyStrip

/-! ### Line editing state (linenoise.py lines 192-456)

`line_state` owns the line buffer (a Python list of one-character
strings), the cursor position and the history navigation index.  The
file descriptors, prompt, column count and the multiline refresh fields
only affect the display and are omitted from the model. -/

structure LineState where
  buf : List PyStr
  pos : Nat
  history_idx : Nat
deriving DecidableEq, Repr

/-- `line_state.__init__` (lines 195-205): empty buffer, cursor at 0. -/
def emptyLineState : LineState := { buf := [], pos := 0, history_idx := 0 }

/-- Python `buf[i]`; out-of-range access only happens outside the states
the source can reach, where Python would raise; the default `[]` keeps
the model total. -/
def bufGet (buf : List PyStr) (i : Nat) : PyStr := buf.getD i []

/-- Python `list(s)`: a string becomes a list of one-character strings. -/
def strToBuf (s : PyStr) : List PyStr := s.map (fun c => [c])

/-- `line_state.__str__` (lines 520-522): `"".join(buf)`. -/
def strOfBuf (buf : List PyStr) : PyStr := buf.flatten

/-- Python `list.insert(i, x)`: clamps the index to the length. -/
def pyInsert (l : List PyStr) (i : Nat) (x : PyStr) : List PyStr :=
  if l.length ≤ i then l ++ [x] else l.insertIdx i x

/-- `line_state.edit_delete` (lines 351-355): `buf.pop(pos)` when the
cursor is on a character. -/
def edit_delete (ls : LineState) : LineState :=
  if 0 < ls.buf.length ∧ ls.pos < ls.buf.length then
    { ls with buf := ls.buf.eraseIdx ls.pos }
  else ls

/-- `line_state.edit_backspace` (lines 357-362). -/
def edit_backspace (ls : LineState) : LineState :=
  if 0 < ls.pos ∧ 0 < ls.buf.length then
    { ls with buf := ls.buf.eraseIdx (ls.pos - 1), pos := ls.pos - 1 }
  else ls

/-- `line_state.edit_insert` (lines 364-368): `buf.insert(pos, c)`. -/
def edit_insert (ls : LineState) (c : PyStr) : LineState :=
  { ls with buf := pyInsert ls.buf ls.pos c, pos := ls.pos + 1 }

/-- `line_state.edit_swap` (lines 370-378). -/
def edit_swap (ls : LineState) : LineState :=
  if 0 < ls.pos ∧ ls.pos < ls.buf.length then
    let tmp := bufGet ls.buf (ls.pos - 1)
    { ls with
      buf := (ls.buf.set (ls.pos - 1) (bufGet ls.buf ls.pos)).set ls.pos tmp,
      pos := if ls.pos ≠ ls.buf.length - 1 then ls.pos + 1 else ls.pos }
  else ls

/-- `line_state.edit_set` (lines 380-386): replace the buffer; the cursor
defaults to the end of the new text, an explicit `pos` is taken as-is
(the source performs no bounds check).  `s = None` is a no-op. -/
def edit_set (ls : LineState) (s : Option PyStr) (pos : Option Nat) : LineState :=
  match s with
  | none => ls
  | some s => { ls with buf := strToBuf s, pos := pos.getD (strToBuf s).length }

/-- `line_state.edit_move_left` (lines 388-392). -/
def edit_move_left (ls : LineState) : LineState :=
  if 0 < ls.pos then { ls with pos := ls.pos - 1 } else ls

/-- `line_state.edit_move_right` (lines 394-398). -/
def edit_move_right (ls : LineState) : LineState :=
  if ls.pos ≠ ls.buf.length then { ls with pos := ls.pos + 1 } else ls

/-- `line_state.edit_move_home` (lines 400-404). -/
def edit_move_home (ls : LineState) : LineState :=
  if ls.pos ≠ 0 then { ls with pos := 0 } else ls

/-- `line_state.edit_move_end` (lines 406-410). -/
def edit_move_end (ls : LineState) : LineState :=
  if ls.pos ≠ ls.buf.length then { ls with pos := ls.buf.length } else ls

/-- A leftwards `while pos > 0 and p(buf[pos-1]): pos -= 1` scan, used by
`edit_move_word_left` and `delete_prev_word`. -/
def skipLeftWhile (p : PyStr → Bool) (buf : List PyStr) : Nat → Nat
  | 0 => 0
  | q + 1 => if p (bufGet buf q) then skipLeftWhile p buf q else q + 1

/-- A rightwards `while pos < len(buf) and p(buf[pos]): pos += 1` scan
with explicit fuel (the source loop takes at most `len(buf)` steps), used
by `edit_move_word_right`. -/
def skipRightWhile (p : PyStr → Bool) (buf : List PyStr) : Nat → Nat → Nat
  | 0, q => q
  | fuel + 1, q =>
    if q < buf.length ∧ p (bufGet buf q) then skipRightWhile p buf fuel (q + 1)
    else q

/-- `line_state.edit_move_word_left` (lines 412-421): skip whitespace,
then skip the word. -/
def edit_move_word_left (ls : LineState) : LineState :=
  let p1 := skipLeftWhile pyIsspaceStr ls.buf ls.pos
  let p2 := skipLeftWhile (fun s => !pyIsspaceStr s) ls.buf p1
  if p2 ≠ ls.pos then { ls with pos := p2 } else ls

/-- `line_state.edit_move_word_right` (lines 424-433): skip the word,
then skip whitespace. -/
def edit_move_word_right (ls : LineState) : LineState :=
  let p1 := skipRightWhile (fun s => !pyIsspaceStr s) ls.buf (ls.buf.length + 1) ls.pos
  let p2 := skipRightWhile pyIsspaceStr ls.buf (ls.buf.length + 1) p1
  if p2 ≠ ls.pos then { ls with pos := p2 } else ls

/-- `line_state.delete_line` (lines 435-439). -/
def delete_line (ls : LineState) : LineState :=
  { ls with buf := [], pos := 0 }

/-- `line_state.delete_to_end` (lines 441-444): `buf = buf[:pos]`. -/
def delete_to_end (ls : LineState) : LineState :=
  { ls with buf := ls.buf.take ls.pos }

/-- `line_state.delete_prev_word` (lines 446-456): move the cursor left
over spaces then over the word, and splice out the skipped range. -/
def delete_prev_word (ls : LineState) : LineState :=
  let old_pos := ls.pos
  let p1 := skipLeftWhile (fun s => s == [' ']) ls.buf ls.pos
  let p2 := skipLeftWhile (fun s => !(s == [' '])) ls.buf p1
  { ls with buf := ls.buf.take p2 ++ ls.buf.drop old_pos, pos := p2 }

/-! ### C1: the cursor invariant over editor operations -/

/-- The cursor invariant `0 ≤ pos ≤ len(buf)` (the lower bound is
implicit in `Nat`). -/
def cursorInv (ls : LineState) : Prop := ls.pos ≤ ls.buf.length

instance : DecidablePred cursorInv := fun ls => Nat.decLe ls.pos ls.buf.length

/-- The buffer-mutating operations named by the claim, each mapped to the
corresponding `line_state` method. -/
inductive EditOp where
  | insert (c : PyStr)
  | delete
  | backspace
  | swap
  | moveLeft
  | moveRight
  | moveHome
  | moveEnd
  | wordLeft
  | wordRight
  | deleteLine
  | deleteToEnd
  | deletePrevWord
  | set (s : Option PyStr) (p : Option Nat)
deriving DecidableEq, Repr

/-- Dispatch an operation to the `line_state` method it names. -/
def applyOp (ls : LineState) : EditOp → LineState
  | .insert c => edit_insert ls c
  | .delete => edit_delete ls
  | .backspace => edit_backspace ls
  | .swap => edit_swap ls
  | .moveLeft => edit_move_left ls
  | .moveRight => edit_move_right ls
  | .moveHome => edit_move_home ls
  | .moveEnd => edit_move_end ls
  | .wordLeft => edit_move_word_left ls
  | .wordRight => edit_move_word_right ls
  | .deleteLine => delete_line ls
  | .deleteToEnd => delete_to_end ls
  | .deletePrevWord => delete_prev_word ls
  | .set s p => edit_set ls s p

/-- Apply a sequence of operations. -/
def applyOps (ls : LineState) (ops : List EditOp) : LineState :=
  ops.foldl applyOp ls

/-- An operation is in-range when an explicit cursor argument to `set`
does not exceed the length of the new text (the claim fails without this
restriction because `edit_set` performs no bounds check). -/
def EditOp.setOk : EditOp → Prop
  | .set (some s) (some p) => p ≤ s.length
  | _ => True

instance : DecidablePred EditOp.setOk := fun op => by
  cases op with
  | set s p =>
    cases s with
    | none => exact isTrue trivial
    | some s =>
      cases p with
      | none => exact isTrue trivial
      | some p => exact Nat.decLe p s.length
  | _ => exact isTrue trivial

/-- The state effect of `linenoise.edit_start` (lines 589-604): a fresh
`line_state`, `edit_set(s)`, then `history_add(str(ls))`.  Raw-mode
handling and the file descriptors are I/O-only and omitted. -/
def edit_start (history_maxlen : Nat) (history : List PyStr) (s : PyStr) :
    List PyStr × LineState :=
  let ls := edit_set emptyLineState (some s) none
  (history_add history_maxlen history (strOfBuf ls.buf), ls)

/-- The not-a-TTY branch of `linenoise.read`, applied to the string
returned by `sys.stdin.readline()` (empty at EOF). -/
def read_notty (line : PyStr) : Option PyStr :=
  let s := pyStripOn (fun c => c == '\n') line
  if s.isEmpty then none else some s

/-! ### Terminal input trace and `_getc` (linenoise.py lines 66-93)

A session consumes an input trace: the list of outcomes of successive
`_getc` calls.  An entry `some s` is a read that returned the string `s`;
`none` is a read that found no data within its timeout.  `would_block`
inspects the same data the next read would see, so it peeks at the head
without consuming it. -/

/-- One `_getc` call against the trace; an exhausted or empty slot yields
the null key, as the timeout path of `_getc` does (lines 74-77). -/
def traceGetc : List (Option PyStr) → PyStr × List (Option PyStr)
  | [] => (_KEY_NULL, [])
  | oc :: rest => (oc.getD _KEY_NULL, rest)

/-- `would_block(fd, timeout)` (lines 89-92): no byte available within
the timeout, i.e. the next read slot is empty. -/
def traceWouldBlock : List (Option PyStr) → Bool
  | [] => true
  | oc :: _ => oc.isNone

/-! ### C8: the `_getc` EOF path (linenoise.py lines 66-82) -/

/-- Python 3 semantics of `bytes == str`: values of different types never
compare equal, so `os.read`'s result (a `bytes`) never equals the `str`
literal `""` on line 80. -/
def pyBytesEqStr (_chunk : List Char) (_s : PyStr) : Bool := false

/-- The tail of `_getc` after `select` reported data (lines 79-82):
`c = os.read(fd, 1); if c == "": return _KEY_NULL; return c.decode("utf8")`.
`chunk` is the `bytes` returned by `os.read` — empty exactly at EOF; its
UTF-8 decoding for the single-byte reads at hand is the same characters. -/
def _getc_read (chunk : List Char) : PyStr :=
  if pyBytesEqStr chunk [] then _KEY_NULL else chunk

/-- `_getc(fd, timeout)` (lines 66-82): `select` first (for `timeout ≥ 0`
only), then the read; `dataReady` is whether `select` reported the fd
readable (at EOF it does, and the read returns the empty chunk). -/
def _getc (timeout : Int) (dataReady : Bool) (chunk : List Char) : PyStr :=
  if 0 ≤ timeout ∧ dataReady = false then _KEY_NULL
  else _getc_read chunk

/-! ### Completion sub-mode (`line_state.complete_line`, lines 458-518) -/

/-- The navigation loop of `complete_line` (lines 468-516).  Per
iteration the temporary candidate display is shown and then undone before
the blocking `_getc`, so the net buffer effect of a continuing iteration
is nil; the loop consumes one trace slot per iteration.  Returns the last
key read together with the resulting buffer, cursor and remaining
trace. -/
def complete_loop (lc : List PyStr) (buf : List PyStr) (pos : Nat) :
    List (Option PyStr) → Nat → PyStr × List PyStr × Nat × List (Option PyStr)
  | [], _ => (_KEY_NULL, buf, pos, [])
  | oc :: rest, idx =>
    let c := oc.getD _KEY_NULL
    if c = _KEY_NULL then (_KEY_NULL, buf, pos, rest)
    else if c = _KEY_TAB then
      complete_loop lc buf pos rest ((idx + 1) % (lc.length + 1))
    else if c = _KEY_ESC then
      if traceWouldBlock rest then (_KEY_NULL, buf, pos, rest)
      else if h : idx < lc.length then
        (_KEY_ESC, strToBuf (lc.get ⟨idx, h⟩), (strToBuf (lc.get ⟨idx, h⟩)).length, rest)
      else (_KEY_ESC, buf, pos, rest)
    else
      if h : idx < lc.length then
        (c, strToBuf (lc.get ⟨idx, h⟩), (strToBuf (lc.get ⟨idx, h⟩)).length, rest)
      else (c, buf, pos, rest)

/-- `line_state.complete_line` (lines 458-518): `lc` is what the
completion callback returned (`None` or a candidate list); an empty or
missing list just beeps and returns the null key. -/
def complete_line (lc : Option (List PyStr)) (buf : List PyStr) (pos : Nat)
    (input : List (Option PyStr)) : PyStr × List PyStr × Nat × List (Option PyStr) :=
  match lc with
  | none => (_KEY_NULL, buf, pos, input)
  | some l =>
    if l.length = 0 then (_KEY_NULL, buf, pos, input)
    else complete_loop l buf pos input 0

/-! ### History navigation (linenoise.py lines 883-917) -/

/-- Python list indexing: non-negative in range, or negative wrap-around;
anything else raises (`none`). -/
def pyIndex (n : Nat) (i : Int) : Option Nat :=
  if 0 ≤ i ∧ i < n then some i.toNat
  else if -(n : Int) ≤ i ∧ i < 0 then some ((n : Int) + i).toNat
  else none

/-- `linenoise.history_set` (lines 883-885): `history[len-1-idx] = line`. -/
def history_set (history : List PyStr) (idx : Nat) (line : PyStr) :
    Option (List PyStr) :=
  (pyIndex history.length ((history.length : Int) - 1 - idx)).map
    (fun j => history.set j line)

/-- `linenoise.history_get` (lines 887-889): `history[len-1-idx]`. -/
def history_get (history : List PyStr) (idx : Nat) : Option PyStr :=
  (pyIndex history.length ((history.length : Int) - 1 - idx)).map
    (fun j => bufGet history j)

/-- `linenoise.history_next` (lines 895-905): write the buffer back, move
the index towards the newest entry (clamped at 0 — which `Nat`
subtraction performs), and recall. -/
def history_next (history : List PyStr) (ls : LineState) :
    Option (List PyStr × LineState) :=
  if history.length = 0 then some (history, ls)
  else do
    let h' ← history_set history ls.history_idx (strOfBuf ls.buf)
    let idx := ls.history_idx - 1
    let line ← history_get h' idx
    some (h', edit_set { ls with history_idx := idx } (some line) none)

/-- `linenoise.history_prev` (lines 907-917): write the buffer back, move
the index towards the oldest entry (clamped at `len - 1`), and recall. -/
def history_prev (history : List PyStr) (ls : LineState) :
    Option (List PyStr × LineState) :=
  if history.length = 0 then some (history, ls)
  else do
    let h' ← history_set history ls.history_idx (strOfBuf ls.buf)
    let idx0 := ls.history_idx + 1
    let idx := if history.length ≤ idx0 then history.length - 1 else idx0
    let line ← history_get h' idx
    some (h', edit_set { ls with history_idx := idx } (some line) none)

/-! ### edit_feed (linenoise.py lines 606-754) -/

/-- `EditResult` (lines 101-108). -/
inductive EditResult where
  | EOF_OR_ERROR
  | MORE
  | ENTER
  | HOTKEY
  | ESCAPE
deriving DecidableEq, Repr

/-- Python `list.pop()` on the history: removes the last element, raising
on an empty list (`none`). -/
def pyPop (l : List PyStr) : Option (List PyStr) :=
  if l.isEmpty then none else some l.dropLast

/-- Python string comparison `a <= b` (lexicographic by code point). -/
def pyStrLe : PyStr → PyStr → Bool
  | [], _ => true
  | _ :: _, [] => false
  | a :: as, b :: bs => if a = b then pyStrLe as bs else decide (a < b)

/-- The `ESC`-sequence decoder of `edit_feed` (lines 650-701), entered
after `would_block` said more bytes follow the escape.  Reads `s0`, `s1`
and possibly more with the short timeout.  Note line 692 compares `s0`
against the digit `"0"`. -/
def edit_feed_escape (history : List PyStr) (ls : LineState)
    (input : List (Option PyStr)) :
    Option (List PyStr × LineState × List (Option PyStr)) :=
  let (s0, in1) := traceGetc input
  let (s1, in2) := traceGetc in1
  if s0 = ['['] then
    if pyStrLe ['0'] s1 && pyStrLe s1 ['9'] then
      let (s2, in3) := traceGetc in2
      if s2 = ['~'] then
        if s1 = ['3'] then some (history, edit_delete ls, in3)
        else some (history, ls, in3)
      else if s2 = [';'] then
        let (s3, in4) := traceGetc in3
        let (s4, in5) := traceGetc in4
        if s3 = ['5'] then
          if s4 = ['C'] then some (history, edit_move_word_right ls, in5)
          else if s4 = ['D'] then some (history, edit_move_word_left ls, in5)
          else some (history, ls, in5)
        else some (history, ls, in5)
      else some (history, ls, in3)
    else
      if s1 = ['A'] then (history_prev history ls).map (fun hl => (hl.1, hl.2, in2))
      else if s1 = ['B'] then (history_next history ls).map (fun hl => (hl.1, hl.2, in2))
      else if s1 = ['C'] then some (history, edit_move_right ls, in2)
      else if s1 = ['D'] then some (history, edit_move_left ls, in2)
      else if s1 = ['H'] then some (history, edit_move_home ls, in2)
      else if s1 = ['F'] then some (history, edit_move_end ls, in2)
      else some (history, ls, in2)
  else if s0 = ['0'] then
    if s1 = ['H'] then some (history, edit_move_home ls, in2)
    else if s1 = ['F'] then some (history, edit_move_end ls, in2)
    else some (history, ls, in2)
  else some (history, ls, in2)

/-- The key dispatch of `edit_feed` (lines 631-752), applied to the key
`c` (either the byte just read or the key forwarded by the completion
sub-mode).  Returns the edit result, the new history, line state and
remaining trace; `none` models an uncaught exception (`pop` of an empty
history). -/
def edit_feed_key (hotkey : Option PyStr) (history : List PyStr) (ls : LineState)
    (c : PyStr) (input : List (Option PyStr)) :
    Option (EditResult × List PyStr × LineState × List (Option PyStr)) :=
  if c = _KEY_ENTER ∨ some c = hotkey then
    (pyPop history).map fun h' =>
      ((if c = _KEY_ENTER then EditResult.ENTER else EditResult.HOTKEY), h', ls, input)
  else if c = _KEY_BS then some (.MORE, history, edit_backspace ls, input)
  else if c = _KEY_ESC then
    if traceWouldBlock input then
      (pyPop history).map fun h' => (.ESCAPE, h', ls, input)
    else
      (edit_feed_escape history ls input).map fun hlr => (.MORE, hlr.1, hlr.2.1, hlr.2.2)
  else if c = _KEY_CTRL_A then some (.MORE, history, edit_move_home ls, input)
  else if c = _KEY_CTRL_B then some (.MORE, history, edit_move_left ls, input)
  else if c = _KEY_CTRL_C then some (.EOF_OR_ERROR, history, ls, input)
  else if c = _KEY_CTRL_D then
    if ls.buf.length ≠ 0 then some (.MORE, history, edit_delete ls, input)
    else (pyPop history).map fun h' => (.EOF_OR_ERROR, h', ls, input)
  else if c = _KEY_CTRL_E then some (.MORE, history, edit_move_end ls, input)
  else if c = _KEY_CTRL_F then some (.MORE, history, edit_move_right ls, input)
  else if c = _KEY_CTRL_H then some (.MORE, history, edit_backspace ls, input)
  else if c = _KEY_CTRL_K then some (.MORE, history, delete_to_end ls, input)
  else if c = _KEY_CTRL_L then some (.MORE, history, ls, input)
  else if c = _KEY_CTRL_N then
    (history_next history ls).map fun hl => (.MORE, hl.1, hl.2, input)
  else if c = _KEY_CTRL_P then
    (history_prev history ls).map fun hl => (.MORE, hl.1, hl.2, input)
  else if c = _KEY_CTRL_T then some (.MORE, history, edit_swap ls, input)
  else if c = _KEY_CTRL_U then some (.MORE, history, delete_line ls, input)
  else if c = _KEY_CTRL_W then some (.MORE, history, delete_prev_word ls, input)
  else some (.MORE, history, edit_insert ls c, input)

/-- `linenoise.edit_feed` (lines 606-754) for an active session: one
blocking read, the completion sub-mode when the key is Tab and a
completion callback is installed, then the key dispatch. -/
def edit_feed (hotkey : Option PyStr)
    (completion_callback : Option (PyStr → Option (List PyStr)))
    (history : List PyStr) (ls : LineState) (input : List (Option PyStr)) :
    Option (EditResult × List PyStr × LineState × List (Option PyStr)) :=
  let (c, in1) := traceGetc input
  if c = _KEY_NULL then some (.EOF_OR_ERROR, history, ls, in1)
  else
    match completion_callback with
    | some cb =>
      if c = _KEY_TAB then
        let r := complete_line (cb (strOfBuf ls.buf)) ls.buf ls.pos in1
        let ls' := { ls with buf := r.2.1, pos := r.2.2.1 }
        if r.1 = _KEY_NULL then some (.MORE, history, ls', r.2.2.2)
        else edit_feed_key hotkey history ls' r.1 r.2.2.2
      else edit_feed_key hotkey history ls c in1
    | none => edit_feed_key hotkey history ls c in1

theorem skipLeftWhile_le (p : PyStr → Bool) (buf : List PyStr) :
    ∀ q, skipLeftWhile p buf q ≤ q := by
  intro q
  induction q with
  | zero => simp [skipLeftWhile]
  | succ n ih =>
    simp only [skipLeftWhile]
    split
    · exact le_trans ih (Nat.le_succ n)
    · exact le_refl _

theorem skipRightWhile_le (p : PyStr → Bool) (buf : List PyStr) :
    ∀ fuel q, q ≤ buf.length → skipRightWhile p buf fuel q ≤ buf.length := by
  intro fuel
  induction fuel with
  | zero => intro q h; simpa [skipRightWhile] using h
  | succ n ih =>
    intro q h
    simp only [skipRightWhile]
    split
    · next hc => exact ih (q + 1) hc.1
    · exact h

theorem pyInsert_length (l : List PyStr) (i : Nat) (x : PyStr) :
    (pyInsert l i x).length = l.length + 1 := by
  unfold pyInsert
  split
  · simp
  · next hlt => rw [List.length_insertIdx _ _ (by omega)]

theorem strToBuf_length (s : PyStr) : (strToBuf s).length = s.length := by
  simp [strToBuf]

/-- Every in-range operation preserves the cursor invariant. -/
theorem applyOp_cursorInv (ls : LineState) (op : EditOp)
    (h : cursorInv ls) (hok : op.setOk) : cursorInv (applyOp ls op) := by
  unfold cursorInv at h ⊢
  cases op with
  | insert c =>
    simp only [applyOp, edit_insert, pyInsert_length]
    omega
  | delete =>
    simp only [applyOp, edit_delete]
    split
    · next hc => simp only [List.length_eraseIdx, if_pos hc.2]; omega
    · exact h
  | backspace =>
    simp only [applyOp, edit_backspace]
    split
    · next hc =>
      simp only [List.length_eraseIdx]
      split <;> omega
    · exact h
  | swap =>
    simp only [applyOp, edit_swap]
    split
    · next hc =>
      simp only [List.length_set]
      split <;> omega
    · exact h
  | moveLeft =>
    simp only [applyOp, edit_move_left]
    split
    · dsimp only; omega
    · exact h
  | moveRight =>
    simp only [applyOp, edit_move_right]
    split
    · next hc => dsimp only; omega
    · exact h
  | moveHome =>
    simp only [applyOp, edit_move_home]
    split
    · exact Nat.zero_le _
    · exact h
  | moveEnd =>
    simp only [applyOp, edit_move_end]
    split
    · dsimp only; omega
    · exact h
  | wordLeft =>
    simp only [applyOp, edit_move_word_left]
    split
    · next =>
      dsimp only
      have h1 := skipLeftWhile_le pyIsspaceStr ls.buf ls.pos
      have h2 := skipLeftWhile_le (fun s => !pyIsspaceStr s) ls.buf
        (skipLeftWhile pyIsspaceStr ls.buf ls.pos)
      omega
    · exact h
  | wordRight =>
    simp only [applyOp, edit_move_word_right]
    split
    · next =>
      dsimp only
      have h1 := skipRightWhile_le (fun s => !pyIsspaceStr s) ls.buf
        (ls.buf.length + 1) ls.pos h
      have h2 := skipRightWhile_le pyIsspaceStr ls.buf (ls.buf.length + 1)
        (skipRightWhile (fun s => !pyIsspaceStr s) ls.buf (ls.buf.length + 1) ls.pos) h1
      omega
    · exact h
  | deleteLine =>
    simp [applyOp, delete_line]
  | deleteToEnd =>
    simp only [applyOp, delete_to_end, List.length_take]
    omega
  | deletePrevWord =>
    simp only [applyOp, delete_prev_word, List.length_append, List.length_take,
      List.length_drop]
    have h1 := skipLeftWhile_le (fun s => s == [' ']) ls.buf ls.pos
    have h2 := skipLeftWhile_le (fun s => !(s == [' '])) ls.buf
      (skipLeftWhile (fun s => s == [' ']) ls.buf ls.pos)
    omega
  | set s p =>
    cases s with
    | none => exact h
    | some s =>
      cases p with
      | none => simp [edit_set, applyOp]
      | some p =>
        simp only [applyOp, edit_set, Option.getD, strToBuf_length]
        simpa [EditOp.setOk] using hok

theorem applyOps_cursorInv (ops : List EditOp) :
    ∀ ls : LineState, cursorInv ls → (∀ op ∈ ops, op.setOk) →
      cursorInv (applyOps ls ops) := by
  induction ops with
  | nil => intro ls h _; exact h
  | cons op rest ih =>
    intro ls h hok
    exact ih (applyOp ls op) (applyOp_cursorInv ls op h (hok op (by simp)))
      (fun o ho => hok o (by simp [ho]))

/-- C1 counterexample: `edit_set("ab", pos=5)` leaves the cursor past the
end of the buffer, so the claimed invariant fails as stated (the source
does not bound an explicit cursor argument). -/
theorem edit_set_cursor_invariant_cex :
    ¬ cursorInv (applyOps emptyLineState [EditOp.set (some ['a', 'b']) (some 5)]) := by
  decide

/-- C1 (amended): starting from the empty buffer, the cursor invariant
`0 ≤ pos ≤ len(buf)` holds after every prefix of any sequence of editor
operations, provided an explicit cursor argument to `set` never exceeds
the length of the text being set; and the empty buffer has `pos = 0`. -/
theorem cursor_invariant_ops :
    emptyLineState.pos = 0 ∧
      ∀ ops : List EditOp, (∀ op ∈ ops, op.setOk) →
        ∀ i, cursorInv (applyOps emptyLineState (ops.take i)) := by
  refine ⟨rfl, fun ops hok i => ?_⟩
  exact applyOps_cursorInv (ops.take i) emptyLineState (Nat.le_refl 0)
    (fun op ho => hok op (List.mem_of_mem_take ho))

/-- C1 witness: a concrete run through the amended theorem. -/
theorem cursor_invariant_ops_witness :
    cursorInv (applyOps emptyLineState
      ([EditOp.insert ['h'], EditOp.moveHome, EditOp.set (some ['a']) (some 1)].take 3)) :=
  cursor_invariant_ops.2 [EditOp.insert ['h'], EditOp.moveHome,
    EditOp.set (some ['a']) (some 1)] (by decide) 3

/-! ### C4, C5: history_add and edit_start -/

/-- After a `history_add` with non-zero maxlen, the newest entry is the
added line. -/
theorem history_add_getLast (M : Nat) (h : List PyStr) (x : PyStr) (hM : M ≠ 0) :
    (history_add M h x).getLast? = some x := by
  unfold history_add
  rw [if_neg hM]
  by_cases hd : h.getLast? = some x
  · rw [if_pos hd]; exact hd
  · rw [if_neg hd]
    exact List.getLast?_concat _

/-- Folding `history_add` over a duplicate-free list starting from the
empty history yields exactly the suffix of the last `maxlen` entries. -/
theorem history_add_foldl_eq_drop (M : Nat) (hM : 1 ≤ M) :
    ∀ l : List PyStr, l.Nodup → l.foldl (history_add M) [] = l.drop (l.length - M) := by
  intro l
  induction l using List.reverseRecOn with
  | nil => simp
  | append_singleton l x ih =>
    intro hnd
    rw [List.nodup_append] at hnd
    obtain ⟨hndl, -, hdisj⟩ := hnd
    have hx : x ∉ l := fun hmem => hdisj hmem (by simp)
    rw [List.foldl_append, List.foldl_cons, List.foldl_nil, ih hndl]
    rcases eq_or_ne l [] with rfl | hlne
    · have hM0 : M ≠ 0 := by omega
      have hM0' : (0 : Nat) ≠ M := by omega
      have h10 : (1 : Nat) - M = 0 := by omega
      simp [history_add, history_append, hM0, hM0', h10]
    · have hlen : 0 < l.length := List.length_pos.mpr hlne
      have hddrop : l.length - M < l.length := by omega
      have hne : l.drop (l.length - M) ≠ [] := by
        intro hcon
        have := congrArg List.length hcon
        rw [List.length_drop] at this
        simp at this
        omega
      have hgl : (l.drop (l.length - M)).getLast? = l.getLast? := by
        conv_rhs => rw [← List.take_append_drop (l.length - M) l]
        rw [List.getLast?_append]
        obtain ⟨a, ha⟩ := Option.isSome_iff_exists.mp (List.getLast?_isSome.mpr hne)
        simp [ha]
      have hxl : (l.drop (l.length - M)).getLast? ≠ some x := by
        rw [hgl]
        intro hcon
        exact hx (List.mem_of_mem_getLast? (by rw [hcon]; simp))
      unfold history_add history_append
      rw [if_neg (by omega), if_neg hxl]
      have hdlen : (l.drop (l.length - M)).length = l.length - (l.length - M) :=
        List.length_drop _ _
      rcases le_or_lt M l.length with hMl | hMl
      · have hlM : (l.drop (l.length - M)).length = M := by omega
        rw [if_pos hlM, List.drop_drop]
        have harith : l.length + 1 - M = (l.length - M) + 1 := by omega
        rw [List.length_append, List.length_singleton, harith,
          List.drop_append_of_le_length (by omega)]
      · have hlM : ¬ (l.drop (l.length - M)).length = M := by omega
        rw [if_neg hlM]
        have hd0 : l.length - M = 0 := by omega
        have hlen1 : (l ++ [x]).length - M = 0 := by
          rw [List.length_append]; simp; omega
        rw [hd0, hlen1, List.drop_zero, List.drop_zero]

/-- C5: adding `N` pairwise-distinct lines to an empty history with
maxlen `M ≥ 1` keeps the length within `M` at every intermediate point,
and the final history is exactly the last `min(N, M)` added lines in
order of addition (newest last). -/
theorem history_add_bounded_suffix (M : Nat) (l : List PyStr)
    (hM : 1 ≤ M) (hnd : l.Nodup) :
    (∀ i, ((l.take i).foldl (history_add M) []).length ≤ M) ∧
      l.foldl (history_add M) [] = l.drop (l.length - M) := by
  refine ⟨fun i => ?_, history_add_foldl_eq_drop M hM l hnd⟩
  rw [history_add_foldl_eq_drop M hM (l.take i)
    (List.Nodup.sublist (List.take_sublist i l) hnd)]
  rw [List.length_drop]
  omega

/-- C5 witness: three distinct lines with maxlen 2 keep the last two. -/
theorem history_add_bounded_suffix_witness :
    (([['a'], ['b'], ['c']] : List PyStr).foldl (history_add 2) []).length ≤ 2 ∧
      ([['a'], ['b'], ['c']] : List PyStr).foldl (history_add 2) [] =
        [['b'], ['c']] := by
  have h := history_add_bounded_suffix 2 [['a'], ['b'], ['c']] (by decide) (by decide)
  exact ⟨h.1 3, by simpa using h.2⟩

theorem strOfBuf_strToBuf (s : PyStr) : strOfBuf (strToBuf s) = s := by
  induction s with
  | nil => rfl
  | cons c t ih => simp only [strOfBuf, strToBuf, List.map_cons, List.flatten_cons] at ih ⊢; simp [ih]

/-- C4 counterexample: when the initial text equals the newest history
entry, `edit_start` does not grow the history (duplicate suppression in
`history_add`), so the history is not one entry longer. -/
theorem edit_start_duplicate_cex :
    (edit_start 32 [['a']] ['a']).1 = [['a']] ∧
      (edit_start 32 [['a']] ['a']).1.length ≠ ([['a']] : List PyStr).length + 1 := by
  decide

/-- C4 (amended): with maxlen ≥ 1, after `edit_start(prompt, s)` the
newest history entry equals `s`; the history is exactly one entry longer
when additionally `s` differs from the previous newest entry and the
history was not full (otherwise duplicate suppression or oldest-drop
keeps the length). -/
theorem edit_start_live_entry (M : Nat) (h : List PyStr) (s : PyStr) (hM : 1 ≤ M) :
    (edit_start M h s).1.getLast? = some s ∧
      (h.getLast? ≠ some s → h.length < M →
        (edit_start M h s).1.length = h.length + 1) := by
  constructor
  · unfold edit_start
    dsimp only
    rw [edit_set, strOfBuf_strToBuf]
    exact history_add_getLast M h s (by omega)
  · intro hne hlen
    unfold edit_start
    dsimp only
    rw [edit_set, strOfBuf_strToBuf]
    unfold history_add history_append
    rw [if_neg (by omega), if_neg hne, if_neg (by omega)]
    simp

/-- C4 witness: `edit_start` on an empty history pushes the initial text. -/
theorem edit_start_live_entry_witness :
    (edit_start 32 [] ['a']).1.getLast? = some ['a'] ∧
      (edit_start 32 [] ['a']).1.length = ([] : List PyStr).length + 1 :=
  ⟨(edit_start_live_entry 32 [] ['a'] (by decide)).1,
    (edit_start_live_entry 32 [] ['a'] (by decide)).2 (by decide) (by decide)⟩

/-- C6: for every history state, two successive `history_add` of the same
line yield the same history as a single `history_add` (consecutive
duplicate suppression makes add idempotent). -/
theorem history_add_idempotent (M : Nat) (h : List PyStr) (x : PyStr) :
    history_add M (history_add M h x) x = history_add M h x := by
  unfold history_add
  by_cases hM : M = 0
  · simp [hM]
  · simp only [hM, if_false]
    by_cases hdup : h.getLast? = some x
    · simp [hdup]
    · simp only [hdup, if_false]
      have hlast : (history_append M h x).getLast? = some x := by
        unfold history_append
        exact List.getLast?_concat _
      simp [hlast]

/-! ### C2: history save/load round trip -/

theorem pyReadlinesAux_line (s : List Char) (hs : ∀ c ∈ s, c ≠ '\n') :
    ∀ acc rest : List Char,
      pyReadlinesAux acc (s ++ '\n' :: rest) =
        ((acc.reverse ++ s) ++ ['\n']) :: pyReadlinesAux [] rest := by
  induction s with
  | nil => intro acc rest; simp [pyReadlinesAux]
  | cons c t ih =>
    intro acc rest
    have hc : c ≠ '\n' := hs c (by simp)
    simp only [List.cons_append, pyReadlinesAux, if_neg hc]
    show pyReadlinesAux (c :: acc) (t ++ '\n' :: rest) = _
    rw [ih (fun d hd => hs d (by simp [hd])) (c :: acc) rest]
    simp

/-- `readlines` recovers the saved entries, each with its newline, when
no entry contains a newline. -/
theorem pyReadlines_save (h : List PyStr) (hne : h ≠ [])
    (hnl : ∀ l ∈ h, '\n' ∉ l) :
    pyReadlines (history_save h) = h.map (· ++ ['\n']) := by
  induction h with
  | nil => cases hne rfl
  | cons x t ih =>
    have hx : ∀ c ∈ x, c ≠ '\n' := by
      intro c hc he
      exact hnl x (by simp) (he ▸ hc)
    cases t with
    | nil =>
      show pyReadlinesAux [] (joinNewline [x] ++ ['\n']) = [x ++ ['\n']]
      simp only [joinNewline]
      rw [show x ++ ['\n'] = x ++ '\n' :: ([] : List Char) from rfl]
      rw [pyReadlinesAux_line x hx [] []]
      simp [pyReadlinesAux]
    | cons y t2 =>
      show pyReadlinesAux [] (joinNewline (x :: y :: t2) ++ ['\n']) = _
      simp only [joinNewline]
      rw [show (x ++ '\n' :: joinNewline (y :: t2)) ++ ['\n'] =
        x ++ '\n' :: (joinNewline (y :: t2) ++ ['\n']) by simp]
      rw [pyReadlinesAux_line x hx [] (joinNewline (y :: t2) ++ ['\n'])]
      have iht := ih (by simp) (fun l hl => hnl l (by simp [hl]))
      unfold pyReadlines history_save at iht
      rw [iht]
      simp

/-- A string fixed by `strip()` stays fixed after dropping an appended
newline. -/
theorem pyStrip_append_newline (x : PyStr) (hx : pyStrip x = x) :
    pyStrip (x ++ ['\n']) = x := by
  rcases eq_or_ne x [] with rfl | hne
  · decide
  · have hdw : x.dropWhile pyIsWsChar = x := by
      have hsuffix := List.dropWhile_suffix (l := x) pyIsWsChar
      have hpre := List.rdropWhile_prefix pyIsWsChar (x.dropWhile pyIsWsChar)
      apply hsuffix.eq_of_length
      have h1 := hsuffix.length_le
      have h2 := hpre.length_le
      have h3 : (pyStrip x).length = x.length := by rw [hx]
      unfold pyStrip pyStripOn at h3
      omega
    have hrd : x.rdropWhile pyIsWsChar = x := by
      have h0 := hx
      unfold pyStrip pyStripOn at h0
      rw [hdw] at h0
      exact h0
    obtain ⟨c, t, rfl⟩ := List.exists_cons_of_ne_nil hne
    have hc : ¬ pyIsWsChar c = true := by
      intro hcon
      have h4 := hdw
      rw [List.dropWhile_cons, if_pos hcon] at h4
      have hsuf := List.dropWhile_suffix (l := t) pyIsWsChar
      have h5 := congrArg List.length h4
      simp only [List.length_cons] at h5
      have h6 := hsuf.length_le
      omega
    unfold pyStrip pyStripOn
    rw [show (c :: t) ++ ['\n'] = c :: (t ++ ['\n']) from rfl]
    rw [List.dropWhile_cons, if_neg hc]
    rw [show c :: (t ++ ['\n']) = (c :: t) ++ ['\n'] from rfl]
    rw [List.rdropWhile_concat_pos _ _ _ (by decide)]
    exact hrd

/-- C2 counterexample: an entry with trailing whitespace is not restored
by save-then-load, because `history_load` strips all edge whitespace
(Python `strip()`), not just the trailing newline. -/
theorem history_save_load_cex :
    history_load (history_save [['a', ' ']]) = [['a']] ∧
      history_load (history_save [['a', ' ']]) ≠ [['a', ' ']] := by
  decide

/-- Universal-newline translation is the identity on content free of
carriage returns. -/
theorem pyUniversalNewlines_eq_self :
    ∀ s : List Char, (∀ c ∈ s, c ≠ '\r') → pyUniversalNewlines s = s := by
  intro s
  induction s with
  | nil => intro _; rfl
  | cons c rest ih =>
    intro hs
    have hc : c ≠ '\r' := hs c (by simp)
    have hrest := ih (fun d hd => hs d (by simp [hd]))
    cases rest with
    | nil =>
      simp only [pyUniversalNewlines]
      rw [if_neg hc]
    | cons d rest2 =>
      simp only [pyUniversalNewlines]
      rw [if_neg hc, hrest]

theorem joinNewline_no_cr (h : List PyStr) (hcr : ∀ l ∈ h, '\r' ∉ l) :
    ∀ c ∈ joinNewline h, c ≠ '\r' := by
  induction h with
  | nil => intro c hc; simp [joinNewline] at hc
  | cons x t ih =>
    cases t with
    | nil =>
      intro c hc he
      exact hcr x (by simp) (he ▸ hc)
    | cons y t2 =>
      intro c hc
      simp only [joinNewline, List.mem_append, List.mem_cons] at hc
      rcases hc with hc | hc | hc
      · exact fun he => hcr x (by simp) (he ▸ hc)
      · subst hc; decide
      · exact ih (fun l hl => hcr l (by simp [hl])) c (by simpa [List.mem_cons] using hc)

/-- A saved history whose entries are free of carriage returns produces a
file content free of carriage returns. -/
theorem history_save_no_cr (h : List PyStr) (hcr : ∀ l ∈ h, '\r' ∉ l) :
    ∀ c ∈ history_save h, c ≠ '\r' := by
  unfold history_save
  intro c hc
  rw [List.mem_append] at hc
  rcases hc with hc | hc
  · exact joinNewline_no_cr h hcr c hc
  · simp only [List.mem_singleton] at hc
    subst hc; decide

/-- C2 (amended): for every non-empty history whose entries contain no
newline and no carriage return and carry no leading or trailing
whitespace (are fixed by Python `strip()`), `history_save` followed by
`history_load` restores the history exactly.  (The empty history reloads
as `[""]`, edge whitespace in an entry is lost to `strip()`, an embedded
newline splits an entry, and an embedded carriage return is a line break
under the text-mode universal-newline translation.) -/
theorem history_save_load_roundtrip (h : List PyStr) (hne : h ≠ [])
    (hok : ∀ l ∈ h, pyStrip l = l ∧ '\n' ∉ l ∧ '\r' ∉ l) :
    history_load (history_save h) = h := by
  unfold history_load
  rw [pyUniversalNewlines_eq_self (history_save h)
    (history_save_no_cr h (fun l hl => (hok l hl).2.2))]
  rw [pyReadlines_save h hne (fun l hl => (hok l hl).2.1), List.map_map]
  have hid : ∀ l ∈ h, pyStrip (l ++ ['\n']) = l :=
    fun l hl => pyStrip_append_newline l (hok l hl).1
  calc h.map (pyStrip ∘ (· ++ ['\n']))
      = h.map id := List.map_congr_left (fun l hl => hid l hl)
    _ = h := List.map_id h

/-- C2 witness: a concrete two-entry history survives the round trip. -/
theorem history_save_load_roundtrip_witness :
    history_load (history_save [['h'], ['i']]) = [['h'], ['i']] :=
  history_save_load_roundtrip [['h'], ['i']] (by decide) (by decide)

/-! ### C9: `read` when stdin is not a TTY (linenoise.py lines 799-804)

`read` does `s = sys.stdin.readline().strip("\n")` and then
`return (s, None)[s == ""]` — indexing the pair with the boolean, i.e.
`None` whenever the stripped line is empty. -/

/-- C9 counterexample: a line consisting of just a newline is returned as
`None` (the EOF signal), not as the empty string. -/
theorem read_notty_blank_line_cex :
    read_notty ['\n'] = none ∧ (none : Option PyStr) ≠ some [] := by
  decide

/-- C9 (amended): when stdin is not a TTY, `read` returns the line with
its trailing newline stripped for every line that is non-empty after
stripping, and returns `None` both at EOF and for a line that strips to
empty (such as a bare newline). -/
theorem read_notty_amended :
    (∀ s : PyStr, '\n' ∉ s → s ≠ [] → read_notty (s ++ ['\n']) = some s) ∧
      read_notty [] = none ∧ read_notty ['\n'] = none := by
  refine ⟨fun s hnl hne => ?_, by decide, by decide⟩
  unfold read_notty
  have hstr : pyStripOn (fun c => c == '\n') (s ++ ['\n']) = s := by
    obtain ⟨c, t, rfl⟩ := List.exists_cons_of_ne_nil hne
    have hc : ¬ (c == '\n') = true := by
      simp only [beq_iff_eq]
      intro he
      exact hnl (by simp [he])
    unfold pyStripOn
    rw [show (c :: t) ++ ['\n'] = c :: (t ++ ['\n']) from rfl]
    rw [List.dropWhile_cons, if_neg hc]
    rw [show c :: (t ++ ['\n']) = (c :: t) ++ ['\n'] from rfl]
    rw [List.rdropWhile_concat_pos _ _ _ (by simp)]
    rw [List.rdropWhile_eq_self_iff.mpr]
    intro hl
    simp only [beq_iff_eq]
    intro hcon
    exact hnl (by rw [← hcon]; exact List.getLast_mem hl)
  rw [hstr]
  simp [hne]

/-- C9 witness: a normal one-character line round-trips through the
not-a-TTY read. -/
theorem read_notty_amended_witness : read_notty (['a'] ++ ['\n']) = some ['a'] :=
  read_notty_amended.1 ['a'] (by decide) (by decide)

/-! ### C3: popping the live history slot on terminal results -/

theorem pyPop_some (l l' : List PyStr) (hp : pyPop l = some l') :
    l ≠ [] ∧ l' = l.dropLast := by
  unfold pyPop at hp
  split at hp
  · exact absurd hp (by simp)
  · next he =>
    cases hp
    exact ⟨fun hcon => he (by simp [hcon]), rfl⟩

set_option maxHeartbeats 4000000 in
/-- In the key dispatch, every Enter, Hotkey or Escape result comes out
of a successful `history.pop()`. -/
theorem edit_feed_key_pop (hk : Option PyStr) (h : List PyStr) (ls : LineState)
    (c : PyStr) (input : List (Option PyStr))
    (r : EditResult) (h' : List PyStr) (ls' : LineState) (rest : List (Option PyStr))
    (heq : edit_feed_key hk h ls c input = some (r, h', ls', rest))
    (hr : r = .ENTER ∨ r = .HOTKEY ∨ r = .ESCAPE) :
    h ≠ [] ∧ h' = h.dropLast := by
  unfold edit_feed_key at heq
  by_cases k1 : c = _KEY_ENTER ∨ some c = hk
  · rw [if_pos k1] at heq
    rcases hp : pyPop h with _ | h0
    · rw [hp] at heq; exact absurd heq (by simp)
    · rw [hp] at heq
      simp only [Option.map_some', Option.some.injEq, Prod.mk.injEq] at heq
      obtain ⟨hne, hdl⟩ := pyPop_some h h0 hp
      exact ⟨hne, by rw [← heq.2.1, hdl]⟩
  rw [if_neg k1] at heq
  by_cases k2 : c = _KEY_BS
  · rw [if_pos k2] at heq
    rcases hr with rfl | rfl | rfl <;> simp at heq
  rw [if_neg k2] at heq
  by_cases k3 : c = _KEY_ESC
  · rw [if_pos k3] at heq
    by_cases k3a : traceWouldBlock input = true
    · rw [if_pos k3a] at heq
      rcases hp : pyPop h with _ | h0
      · rw [hp] at heq; exact absurd heq (by simp)
      · rw [hp] at heq
        simp only [Option.map_some', Option.some.injEq, Prod.mk.injEq] at heq
        obtain ⟨hne, hdl⟩ := pyPop_some h h0 hp
        exact ⟨hne, by rw [← heq.2.1, hdl]⟩
    · rw [if_neg k3a] at heq
      rcases hr with rfl | rfl | rfl <;>
        (rcases hx : edit_feed_escape h ls input with _ | val <;>
          rw [hx] at heq <;> simp at heq)
  rw [if_neg k3] at heq
  by_cases k4 : c = _KEY_CTRL_A
  · rw [if_pos k4] at heq
    rcases hr with rfl | rfl | rfl <;> simp at heq
  rw [if_neg k4] at heq
  by_cases k5 : c = _KEY_CTRL_B
  · rw [if_pos k5] at heq
    rcases hr with rfl | rfl | rfl <;> simp at heq
  rw [if_neg k5] at heq
  by_cases k6 : c = _KEY_CTRL_C
  · rw [if_pos k6] at heq
    rcases hr with rfl | rfl | rfl <;> simp at heq
  rw [if_neg k6] at heq
  by_cases k7 : c = _KEY_CTRL_D
  · rw [if_pos k7] at heq
    by_cases k7a : ls.buf.length ≠ 0
    · rw [if_pos k7a] at heq
      rcases hr with rfl | rfl | rfl <;> simp at heq
    · rw [if_neg k7a] at heq
      rcases hp : pyPop h with _ | h0
      · rw [hp] at heq; exact absurd heq (by simp)
      · rw [hp] at heq
        simp only [Option.map_some', Option.some.injEq, Prod.mk.injEq] at heq
        obtain ⟨hne, hdl⟩ := pyPop_some h h0 hp
        exact ⟨hne, by rw [← heq.2.1, hdl]⟩
  rw [if_neg k7] at heq
  by_cases k8 : c = _KEY_CTRL_E
  · rw [if_pos k8] at heq
    rcases hr with rfl | rfl | rfl <;> simp at heq
  rw [if_neg k8] at heq
  by_cases k9 : c = _KEY_CTRL_F
  · rw [if_pos k9] at heq
    rcases hr with rfl | rfl | rfl <;> simp at heq
  rw [if_neg k9] at heq
  by_cases k10 : c = _KEY_CTRL_H
  · rw [if_pos k10] at heq
    rcases hr with rfl | rfl | rfl <;> simp at heq
  rw [if_neg k10] at heq
  by_cases k11 : c = _KEY_CTRL_K
  · rw [if_pos k11] at heq
    rcases hr with rfl | rfl | rfl <;> simp at heq
  rw [if_neg k11] at heq
  by_cases k12 : c = _KEY_CTRL_L
  · rw [if_pos k12] at heq
    rcases hr with rfl | rfl | rfl <;> simp at heq
  rw [if_neg k12] at heq
  by_cases k13 : c = _KEY_CTRL_N
  · rw [if_pos k13] at heq
    rcases hr with rfl | rfl | rfl <;>
      (rcases hx : history_next h ls with _ | val <;>
        rw [hx] at heq <;> simp at heq)
  rw [if_neg k13] at heq
  by_cases k14 : c = _KEY_CTRL_P
  · rw [if_pos k14] at heq
    rcases hr with rfl | rfl | rfl <;>
      (rcases hx : history_prev h ls with _ | val <;>
        rw [hx] at heq <;> simp at heq)
  rw [if_neg k14] at heq
  by_cases k15 : c = _KEY_CTRL_T
  · rw [if_pos k15] at heq
    rcases hr with rfl | rfl | rfl <;> simp at heq
  rw [if_neg k15] at heq
  by_cases k16 : c = _KEY_CTRL_U
  · rw [if_pos k16] at heq
    rcases hr with rfl | rfl | rfl <;> simp at heq
  rw [if_neg k16] at heq
  by_cases k17 : c = _KEY_CTRL_W
  · rw [if_pos k17] at heq
    rcases hr with rfl | rfl | rfl <;> simp at heq
  rw [if_neg k17] at heq
  rcases hr with rfl | rfl | rfl <;> simp at heq

/-- C3 (amended): whenever `edit_feed` returns Enter, Hotkey or Escape,
the live history slot (newest entry) has been popped before returning.
It is NOT popped when EofOrError is produced by Ctrl-C or by a read that
yields the null key; among the EofOrError paths only Ctrl-D on an empty
buffer pops. -/
theorem edit_feed_pop_on_terminal (hk : Option PyStr)
    (cb : Option (PyStr → Option (List PyStr))) (h : List PyStr) (ls : LineState)
    (input : List (Option PyStr)) (r : EditResult) (h' : List PyStr)
    (ls' : LineState) (rest : List (Option PyStr))
    (heq : edit_feed hk cb h ls input = some (r, h', ls', rest))
    (hr : r = .ENTER ∨ r = .HOTKEY ∨ r = .ESCAPE) :
    h ≠ [] ∧ h' = h.dropLast := by
  unfold edit_feed at heq
  rcases input with _ | ⟨oc, in1⟩
  · simp only [traceGetc] at heq
    rcases hr with rfl | rfl | rfl <;> simp at heq
  · simp only [traceGetc] at heq
    by_cases hnull : oc.getD _KEY_NULL = _KEY_NULL
    · rw [if_pos hnull] at heq
      rcases hr with rfl | rfl | rfl <;> simp at heq
    · rw [if_neg hnull] at heq
      cases cb with
      | none =>
        dsimp only at heq
        exact edit_feed_key_pop _ _ _ _ _ _ _ _ _ heq hr
      | some f =>
        dsimp only at heq
        by_cases htab : oc.getD _KEY_NULL = _KEY_TAB
        · rw [if_pos htab] at heq
          by_cases hcn :
            (complete_line (f (strOfBuf ls.buf)) ls.buf ls.pos in1).1 = _KEY_NULL
          · rw [if_pos hcn] at heq
            rcases hr with rfl | rfl | rfl <;> simp at heq
          · rw [if_neg hcn] at heq
            exact edit_feed_key_pop _ _ _ _ _ _ _ _ _ heq hr
        · rw [if_neg htab] at heq
          exact edit_feed_key_pop _ _ _ _ _ _ _ _ _ heq hr

/-- C3 witness: pressing Enter pops the single live entry. -/
theorem edit_feed_pop_on_terminal_witness :
    ([['x']] : List PyStr) ≠ [] ∧ ([] : List PyStr) = ([['x']] : List PyStr).dropLast :=
  edit_feed_pop_on_terminal none none [['x']]
    { buf := [], pos := 0, history_idx := 0 } [some _KEY_ENTER]
    .ENTER [] { buf := [], pos := 0, history_idx := 0 } [] (by decide)
    (Or.inl rfl)

/-- C3 counterexample: Ctrl-C produces the terminal result EofOrError
with the live history slot still in place — the history is returned
unchanged, not popped. -/
theorem edit_feed_ctrl_c_no_pop_cex :
    edit_feed none none [['x']] { buf := [['a'], ['b']], pos := 2, history_idx := 0 }
        [some _KEY_CTRL_C] =
      some (.EOF_OR_ERROR, [['x']],
        { buf := [['a'], ['b']], pos := 2, history_idx := 0 }, []) ∧
      ([['x']] : List PyStr) ≠ ([['x']] : List PyStr).dropLast := by
  decide

/-! ### C7: the `ESC O` sequences -/

/-- C7: line 692 compares the byte after `ESC` with the digit `"0"`
instead of the letter `"O"`, so `ESC O H` and `ESC O F` fall through
ignored (result More, state unchanged), while `ESC [ H` / `ESC [ F` (and
the never-sent `ESC 0 H`) do move the cursor. -/
theorem escape_O_sequence_ignored :
    edit_feed none none [['x']] { buf := [['a'], ['b']], pos := 2, history_idx := 0 }
        [some _KEY_ESC, some ['O'], some ['H']] =
      some (.MORE, [['x']], { buf := [['a'], ['b']], pos := 2, history_idx := 0 }, []) ∧
      edit_feed none none [['x']] { buf := [['a'], ['b']], pos := 1, history_idx := 0 }
          [some _KEY_ESC, some ['O'], some ['F']] =
        some (.MORE, [['x']], { buf := [['a'], ['b']], pos := 1, history_idx := 0 }, []) ∧
      (edit_feed none none [['x']] { buf := [['a'], ['b']], pos := 2, history_idx := 0 }
          [some _KEY_ESC, some ['['], some ['H']]).map (fun res => res.2.2.1.pos) =
        some 0 ∧
      (edit_feed none none [['x']] { buf := [['a'], ['b']], pos := 1, history_idx := 0 }
          [some _KEY_ESC, some ['['], some ['F']]).map (fun res => res.2.2.1.pos) =
        some 2 ∧
      (edit_feed none none [['x']] { buf := [['a'], ['b']], pos := 2, history_idx := 0 }
          [some _KEY_ESC, some ['0'], some ['H']]).map (fun res => res.2.2.1.pos) =
        some 0 :=
  ⟨by decide, by decide, by decide, by decide, by decide⟩

/-! ### C8: `_getc` at end of file -/

/-- C8: at EOF `os.read` returns the empty `bytes`; the guard on line 80
compares it with the `str` literal `""`, which is always False in
Python 3, so `_getc` returns the decoded empty string — not the null
key — for every timeout; `edit_feed` then treats that empty string as a
printable key, inserts it into the buffer and returns More instead of
EofOrError. -/
theorem getc_eof_not_null :
    (∀ timeout : Int, _getc timeout true [] = ([] : PyStr)) ∧
      ([] : PyStr) ≠ _KEY_NULL ∧
      edit_feed none none [['x']] { buf := [], pos := 0, history_idx := 0 }
          [some ([] : PyStr)] =
        some (.MORE, [['x']], { buf := [[]], pos := 1, history_idx := 0 }, []) := by
  refine ⟨fun timeout => ?_, by decide, by decide⟩
  unfold _getc _getc_read pyBytesEqStr
  simp

/-! ### C10: cancellation leaves the buffer untouched -/

theorem complete_loop_spec (lc : List PyStr) (buf : List PyStr) (pos : Nat) :
    ∀ (input : List (Option PyStr)) (idx : Nat),
      ((complete_loop lc buf pos input idx).1 = _KEY_NULL →
          (complete_loop lc buf pos input idx).2.1 = buf ∧
            (complete_loop lc buf pos input idx).2.2.1 = pos) ∧
        ((complete_loop lc buf pos input idx).2.1 ≠ buf ∨
            (complete_loop lc buf pos input idx).2.2.1 ≠ pos →
          (complete_loop lc buf pos input idx).1 ≠ _KEY_NULL ∧
            (complete_loop lc buf pos input idx).1 ≠ _KEY_TAB ∧
            ∃ i, ∃ hi : i < lc.length,
              (complete_loop lc buf pos input idx).2.1 = strToBuf (lc.get ⟨i, hi⟩) ∧
                (complete_loop lc buf pos input idx).2.2.1 =
                  (strToBuf (lc.get ⟨i, hi⟩)).length) := by
  intro input
  induction input with
  | nil =>
    intro idx
    refine ⟨fun _ => ⟨rfl, rfl⟩, fun hne => ?_⟩
    rcases hne with hne | hne <;> exact absurd rfl hne
  | cons oc rest ih =>
    intro idx
    by_cases h1 : oc.getD _KEY_NULL = _KEY_NULL
    · have hstep : complete_loop lc buf pos (oc :: rest) idx = (_KEY_NULL, buf, pos, rest) := by
        simp only [complete_loop]
        rw [if_pos h1]
      rw [hstep]
      refine ⟨fun _ => ⟨rfl, rfl⟩, fun hne => ?_⟩
      rcases hne with hne | hne <;> exact absurd rfl hne
    · by_cases h2 : oc.getD _KEY_NULL = _KEY_TAB
      · have hstep : complete_loop lc buf pos (oc :: rest) idx =
            complete_loop lc buf pos rest ((idx + 1) % (lc.length + 1)) := by
          simp only [complete_loop]
          rw [if_neg h1, if_pos h2]
        rw [hstep]
        exact ih _
      · by_cases h3 : oc.getD _KEY_NULL = _KEY_ESC
        · by_cases h4 : traceWouldBlock rest = true
          · have hstep : complete_loop lc buf pos (oc :: rest) idx =
                (_KEY_NULL, buf, pos, rest) := by
              simp only [complete_loop]
              rw [if_neg h1, if_neg h2, if_pos h3, if_pos h4]
            rw [hstep]
            refine ⟨fun _ => ⟨rfl, rfl⟩, fun hne => ?_⟩
            rcases hne with hne | hne <;> exact absurd rfl hne
          · by_cases h5 : idx < lc.length
            · have hstep : complete_loop lc buf pos (oc :: rest) idx =
                  (_KEY_ESC, strToBuf (lc.get ⟨idx, h5⟩),
                    (strToBuf (lc.get ⟨idx, h5⟩)).length, rest) := by
                simp only [complete_loop]
                rw [if_neg h1, if_neg h2, if_pos h3, if_neg h4, dif_pos h5]
              rw [hstep]
              constructor
              · intro habs
                exact absurd (show _KEY_ESC = _KEY_NULL from habs) (by decide)
              · intro
                refine ⟨?_, ?_, idx, h5, rfl, rfl⟩
                · exact fun hcon =>
                    absurd (show _KEY_ESC = _KEY_NULL from hcon) (by decide)
                · exact fun hcon =>
                    absurd (show _KEY_ESC = _KEY_TAB from hcon) (by decide)
            · have hstep : complete_loop lc buf pos (oc :: rest) idx =
                  (_KEY_ESC, buf, pos, rest) := by
                simp only [complete_loop]
                rw [if_neg h1, if_neg h2, if_pos h3, if_neg h4, dif_neg h5]
              rw [hstep]
              refine ⟨fun _ => ⟨rfl, rfl⟩, fun hne => ?_⟩
              rcases hne with hne | hne <;> exact absurd rfl hne
        · by_cases h5 : idx < lc.length
          · have hstep : complete_loop lc buf pos (oc :: rest) idx =
                (oc.getD _KEY_NULL, strToBuf (lc.get ⟨idx, h5⟩),
                  (strToBuf (lc.get ⟨idx, h5⟩)).length, rest) := by
              simp only [complete_loop]
              rw [if_neg h1, if_neg h2, if_neg h3, dif_pos h5]
            rw [hstep]
            exact ⟨fun habs => absurd habs h1, fun _ => ⟨h1, h2, idx, h5, rfl, rfl⟩⟩
          · have hstep : complete_loop lc buf pos (oc :: rest) idx =
                (oc.getD _KEY_NULL, buf, pos, rest) := by
              simp only [complete_loop]
              rw [if_neg h1, if_neg h2, if_neg h3, dif_neg h5]
            rw [hstep]
            refine ⟨fun _ => ⟨rfl, rfl⟩, fun hne => ?_⟩
            rcases hne with hne | hne <;> exact absurd rfl hne

/-- C10: when the completion sub-mode ends by cancellation — a bare
Escape with nothing following within the timeout, or a read error, both
of which hand back the null key — the line buffer and cursor are exactly
as they were on entry; whenever they changed, some candidate slot
`i < N` was committed by a key that is neither Tab nor a cancelled
escape. -/
theorem complete_line_cancel_preserves (lc : Option (List PyStr))
    (buf : List PyStr) (pos : Nat) (input : List (Option PyStr)) :
    ((complete_line lc buf pos input).1 = _KEY_NULL →
        (complete_line lc buf pos input).2.1 = buf ∧
          (complete_line lc buf pos input).2.2.1 = pos) ∧
      ((complete_line lc buf pos input).2.1 ≠ buf ∨
          (complete_line lc buf pos input).2.2.1 ≠ pos →
        ∃ l, lc = some l ∧
          (complete_line lc buf pos input).1 ≠ _KEY_NULL ∧
            (complete_line lc buf pos input).1 ≠ _KEY_TAB ∧
            ∃ i, ∃ hi : i < l.length,
              (complete_line lc buf pos input).2.1 = strToBuf (l.get ⟨i, hi⟩) ∧
                (complete_line lc buf pos input).2.2.1 =
                  (strToBuf (l.get ⟨i, hi⟩)).length) := by
  cases lc with
  | none =>
    refine ⟨fun _ => ⟨rfl, rfl⟩, fun hne => ?_⟩
    rcases hne with hne | hne <;> exact absurd rfl hne
  | some l =>
    by_cases hl : l.length = 0
    · have hstep : complete_line (some l) buf pos input = (_KEY_NULL, buf, pos, input) := by
        simp only [complete_line]
        rw [if_pos hl]
      rw [hstep]
      refine ⟨fun _ => ⟨rfl, rfl⟩, fun hne => ?_⟩
      rcases hne with hne | hne <;> exact absurd rfl hne
    · have hstep : complete_line (some l) buf pos input =
          complete_loop l buf pos input 0 := by
        simp only [complete_line]
        rw [if_neg hl]
      rw [hstep]
      obtain ⟨hA, hB⟩ := complete_loop_spec l buf pos input 0
      exact ⟨hA, fun hne =>
        ⟨l, rfl, (hB hne).1, (hB hne).2.1, (hB hne).2.2⟩⟩

/-- C10 witness: a bare escape cancels the sub-mode and restores the
entry buffer and cursor. -/
theorem complete_line_cancel_preserves_witness :
    (complete_line (some [['a'], ['b']]) [['q']] 1 [some _KEY_ESC]).2.1 = [['q']] ∧
      (complete_line (some [['a'], ['b']]) [['q']] 1 [some _KEY_ESC]).2.2.1 = 1 :=
  (complete_line_cancel_preserves (some [['a'], ['b']]) [['q']] 1
    [some _KEY_ESC]).1 (by decide)

end PyLinenoise
